import Mathlib

/-!
Verification of `facebook_api/mixins.py` (django-facebook-api).

The file embeds the reconciliation logic of the mixins module:
`fetch_shares` (set diffing against the local association edges, deletion of
edges without a start timestamp, bulk creation of stamped edges),
`fetch_likes` / `fetch_reactions` (per-page resource collection), the
`update_count_and_get_*` callbacks, `count_reactions`, and
`ActionableModelMixin.save`.

External parts that are not in the module are modelled explicitly:
* the `m2m_history` through table: an association edge carries `time_from` /
  `time_to`; per the documented invariant, an edge without an end time is
  currently active, and the current querysets range over active edges;
* `get_or_create_from_small_resource` (`utils.py`): returns a user for a
  known small resource and raises `UnknownResourceType` otherwise; a
  resource is abstracted by a `known` flag together with the resulting pk;
* `api_call` / the `fetch_all` decorator (`api.py` / `decorators.py`):
  a paginated collection is a list of pages; each response carries its
  `data` and an optional `after` cursor; the loop re-invokes the wrapped
  function with the cursor until a response has no next cursor, accumulates
  the returned instances, and finally applies `return_all`.

Times are opaque values (`Nat`); `dateutil.parser.parse` is the identity on
present values.  Local user pks and remote graph ids are related by the
functions `g2pk` (what `get_or_create_from_small_resource` returns for a
remote resource) and `pk2g` (the `graph_id` column of the user row).
-/

namespace FacebookApi

/-- A row of the many-to-many history through table for one host object:
the associated user's local pk and the validity window. -/
structure Edge where
  user_pk : Nat
  time_from : Option Nat
  time_to : Option Nat
deriving DecidableEq, Repr

/-- The `from` sub-dictionary of a shared post: the remote graph id (absent
when the dictionary has no `id` key), whether a `name` key is present,
whether any key besides `id` and `name` is present, and whether
`get_or_create_from_small_resource` recognises the resource. -/
structure FromRes where
  id : Option Nat
  hasName : Bool
  extra : Bool
  known : Bool
deriving DecidableEq, Repr

/-- One entry of a `sharedposts` page: `fromRes = none` models an absent or
empty (falsy) `from` value, which `post.get('from')` filters out. -/
structure SharePost where
  fromRes : Option FromRes
  created_time : Option Nat
deriving DecidableEq, Repr

/-- A remote API response: the page's `data` and the `after` paging cursor
(`none` on the last page).  The cursor is an opaque token of type `κ`. -/
structure Response (ρ κ : Type) where
  data : List ρ
  after : Option κ
deriving DecidableEq

/-- The share-relevant state of a `ShareableModelMixin` record: its
association edges, `shares_count`, its own `created_time`, and whether
`save()` has been called. -/
structure ShareState where
  edges : List Edge
  shares_count : Option Nat
  created_time : Option Nat
  saved : Bool
deriving DecidableEq, Repr

/-- `post.get('from')`-filter: `posts = [post for post in response['data'] if post.get('from')]`. -/
def sharePosts (data : List SharePost) : List SharePost :=
  data.filter fun p => p.fromRes.isSome

/-- A page is well formed when every kept post has both `from['id']` and
`created_time`; otherwise the `timestamps` dict comprehension raises
`KeyError` before any state change. -/
def sharePageOK (data : List SharePost) : Bool :=
  (sharePosts data).all fun p =>
    (p.fromRes.bind FromRes.id).isSome && p.created_time.isSome

/-- `timestamps = dict([(int(post['from']['id']), datetime_parse(post['created_time'])) for post in posts])`,
as the underlying pair list (the dict takes the last value per key). -/
def timestamps_of (data : List SharePost) : List (Nat × Nat) :=
  (sharePosts data).filterMap fun p =>
    match p.fromRes.bind FromRes.id, p.created_time with
    | some g, some t => some (g, t)
    | _, _ => none

/-- Python-dict lookup over a pair list: the last binding of a key wins. -/
def dictLookup (l : List (Nat × Nat)) (g : Nat) : Option Nat :=
  l.foldl (fun acc kv => if kv.fst = g then some kv.snd else acc) none

/-- `ids_new = timestamps.keys()`. -/
def ids_new_of (data : List SharePost) : List Nat :=
  (timestamps_of data).map Prod.fst

/-- `ids_current`: graph ids of the users holding a currently active edge
(`time_to` null, per the m2m-history current queryset) whose `time_from` is
not null (the `.exclude(time_from=None)` in the source). -/
def ids_current_of (pk2g : Nat → Nat) (edges : List Edge) : List Nat :=
  (edges.filter fun e => e.time_to.isNone && e.time_from.isSome).map
    fun e => pk2g e.user_pk

/-- `ids_add = set(ids_new).difference(set(ids_current))` (as a list whose
membership is the set difference). -/
def ids_add_of (pk2g : Nat → Nat) (edges : List Edge) (data : List SharePost) : List Nat :=
  (ids_new_of data).filter fun g => decide (g ∉ ids_current_of pk2g edges)

/-- `ids_remove = set(ids_current).difference(set(ids_new))`. -/
def ids_remove_of (pk2g : Nat → Nat) (edges : List Edge) (data : List SharePost) : List Nat :=
  (ids_current_of pk2g edges).filter fun g => decide (g ∉ ids_new_of data)

/-- `sorted(post['from'].keys()) == ['id', 'name']`. -/
def goodFrom (f : FromRes) : Bool :=
  f.id.isSome && f.hasName && !f.extra

/-- One iteration of the `for post in posts` loop: accumulate the returned
user pks in `ids` and the `(graph_id, pk)` pairs in `ids_add_pairs`;
a post whose `from` keys are not exactly `id`/`name` is skipped, an
`UnknownResourceType` resource is skipped, and a duplicate graph id adds no
second pair. -/
def sharesLoopStep (g2pk : Nat → Nat) (ids_add : List Nat)
    (acc : List Nat × List (Nat × Nat)) (p : SharePost) : List Nat × List (Nat × Nat) :=
  match p.fromRes with
  | none => acc
  | some f =>
    let g := f.id.getD 0
    if goodFrom f then
      if f.known then
        if g ∈ ids_add ∧ g ∉ acc.2.map Prod.fst then
          (acc.1 ++ [g2pk g], acc.2 ++ [(g, g2pk g)])
        else
          (acc.1 ++ [g2pk g], acc.2)
      else acc
    else acc

/-- The whole `for post in posts` loop. -/
def sharesLoop (g2pk : Nat → Nat) (ids_add : List Nat) (posts : List SharePost) :
    List Nat × List (Nat × Nat) :=
  posts.foldl (sharesLoopStep g2pk ids_add) ([], [])

/-- `ids_add_pairs` after the loop. -/
def ids_add_pairs_of (pk2g g2pk : Nat → Nat) (edges : List Edge) (data : List SharePost) :
    List (Nat × Nat) :=
  (sharesLoop g2pk (ids_add_of pk2g edges data) (sharePosts data)).2

/-- `ids` after the loop (the pks returned to `fetch_all`). -/
def share_ids_of (pk2g g2pk : Nat → Nat) (edges : List Edge) (data : List SharePost) :
    List Nat :=
  (sharesLoop g2pk (ids_add_of pk2g edges data) (sharePosts data)).1

/-- `get_share_date = lambda id: timestamps[id] if id in timestamps else self.created_time`. -/
def get_share_date (ts : List (Nat × Nat)) (created_time : Option Nat) (g : Nat) : Option Nat :=
  match dictLookup ts g with
  | some t => some t
  | none => created_time

/-- The `bulk_create` list: one fresh active edge per `(graph_id, pk)` pair,
with `time_from` from `get_share_date`. -/
def new_edges_of (pk2g g2pk : Nat → Nat) (s : ShareState) (data : List SharePost) : List Edge :=
  (ids_add_pairs_of pk2g g2pk s.edges data).map fun gp =>
    ⟨gp.2, get_share_date (timestamps_of data) s.created_time gp.1, none⟩

/-- The edges surviving the two `delete()` calls: first the active edges with
`time_from=None` are removed, then the active edges of the users being
re-added. -/
def kept_edges_of (pk2g g2pk : Nat → Nat) (s : ShareState) (data : List SharePost) : List Edge :=
  (s.edges.filter fun e => !(e.time_to.isNone && e.time_from.isNone)).filter
    fun e => !(e.time_to.isNone &&
      decide (e.user_pk ∈ (ids_add_pairs_of pk2g g2pk s.edges data).map Prod.snd))

/-- The body of `fetch_shares` for one response: on a falsy response nothing
happens; on a well-formed page the diff is computed and applied and the
collected pks are returned; on a malformed page the `KeyError` from the
`timestamps` comprehension escapes before any state change. -/
def fetch_shares_page {κ : Type} (pk2g g2pk : Nat → Nat) (s : ShareState)
    (resp : Option (Response SharePost κ)) : Except String (List Nat × ShareState) :=
  match resp with
  | none => .ok ([], s)
  | some r =>
    if sharePageOK r.data then
      .ok (share_ids_of pk2g g2pk s.edges r.data,
           { s with edges := kept_edges_of pk2g g2pk s r.data ++
                             new_edges_of pk2g g2pk s r.data })
    else .error "KeyError"

/-- `update_count_and_get_shares_users`: does not assign `shares_users`, and
sets `shares_count` (and saves) only when it was null. -/
def update_count_and_get_shares_users (s : ShareState) (instances : List Nat) :
    ShareState × List Nat :=
  if s.shares_count.isNone then
    ({ s with shares_count := some instances.length, saved := true }, instances)
  else (s, instances)

/-! ### Pagination (spec-modelled)

Modelled from the spec: the `fetch_all` decorator (`decorators.py`, not part
of the module) consumes the paginated collection page by page, passing each
response's `after` cursor back to the wrapped function, until a falsy
response or a response without a next cursor, and accumulates the returned
instances.  The recursion carries explicit fuel so that a wrapped function
that never advances the cursor still yields a total model. -/

/-- The stateless `fetch_all` loop (likes, reactions). -/
def fetchAllLoop {ρ κ : Type} (f : Option κ → List Nat × Option (Response ρ κ)) :
    Nat → Option κ → List Nat
  | 0, _ => []
  | fuel+1, cur =>
    match f cur with
    | (ids, none) => ids
    | (ids, some r) =>
      match r.after with
      | none => ids
      | some c => ids ++ fetchAllLoop f fuel (some c)

/-- The `fetch_all` loop threading the record state, for a wrapped function
that can raise (shares). -/
def fetchAllLoopE {σ ρ κ : Type}
    (f : σ → Option κ → Except String (List Nat × σ × Option (Response ρ κ))) :
    Nat → σ → Option κ → Except String (List Nat × σ)
  | 0, s, _ => .ok ([], s)
  | fuel+1, s, cur =>
    match f s cur with
    | .error e => .error e
    | .ok (ids, s', resp) =>
      match resp with
      | none => .ok (ids, s')
      | some r =>
        match r.after with
        | none => .ok (ids, s')
        | some c =>
          match fetchAllLoopE f fuel s' (some c) with
          | .error e => .error e
          | .ok (ids2, s2) => .ok (ids ++ ids2, s2)

/-- Modelled from the spec: `api_call` (`api.py`, not part of the module)
serves a paginated collection.  A collection is a list of pages; the opaque
`after` cursor of a response is the list of remaining pages. -/
def pagesResp {ρ : Type} : List (List ρ) → Option (Response ρ (List (List ρ)))
  | [] => none
  | d :: rest => some ⟨d, if rest.isEmpty then none else some rest⟩

/-- The remote endpoint: without a cursor it serves the first page, with a
cursor the first remaining page. -/
def pagesApi {ρ : Type} (pages : List (List ρ)) :
    Option (List (List ρ)) → Option (Response ρ (List (List ρ)))
  | none => pagesResp pages
  | some rest => pagesResp rest

/-- One `fetch_shares` call as seen by `fetch_all`: query the endpoint at the
cursor, run the page body, and hand the response back for paging. -/
def fetch_shares_step (pk2g g2pk : Nat → Nat) (pages : List (List SharePost))
    (s : ShareState) (cur : Option (List (List SharePost))) :
    Except String (List Nat × ShareState × Option (Response SharePost (List (List SharePost)))) :=
  match fetch_shares_page pk2g g2pk s (pagesApi pages cur) with
  | .error e => .error e
  | .ok (ids, s') => .ok (ids, s', pagesApi pages cur)

/-- A full `fetch_shares` run: the decorated loop over all pages followed by
`return_all = update_count_and_get_shares_users` on the accumulated distinct
user set. -/
def fetch_shares_run (pk2g g2pk : Nat → Nat) (s₀ : ShareState)
    (pages : List (List SharePost)) (fuel : Nat) : Except String (ShareState × List Nat) :=
  match fetchAllLoopE (fetch_shares_step pk2g g2pk pages) fuel s₀ none with
  | .error e => .error e
  | .ok (ids, s) => .ok (update_count_and_get_shares_users s ids.dedup)

/-! ### Likes -/

/-- A small resource of a `likes` page, abstracted by whether
`get_or_create_from_small_resource` (spec-modelled, `utils.py`) recognises it
and by the pk of the resulting user. -/
structure SmallRes where
  known : Bool
  pk : Nat
deriving DecidableEq, Repr

/-- The body of `fetch_likes` for one response: the pks of the users of the
recognised resources, in order; `UnknownResourceType` entries are skipped. -/
def likesPageIds {κ : Type} (resp : Option (Response SmallRes κ)) : List Nat :=
  match resp with
  | none => []
  | some r => r.data.filterMap fun x => if x.known then some x.pk else none

/-- The like-relevant state of a `LikableModelMixin` record. -/
structure LikeState where
  likes_users : List Nat
  likes_count : Option Nat
  saved : Bool
deriving DecidableEq, Repr

/-- `update_count_and_get_like_users`: assigns the user set and its
cardinality and saves. -/
def update_count_and_get_like_users (_s : LikeState) (instances : List Nat) :
    LikeState × List Nat :=
  ({ likes_users := instances, likes_count := some instances.length, saved := true }, instances)

/-- The pks of one likes page. -/
def likesIds (d : List SmallRes) : List Nat :=
  d.filterMap fun x => if x.known then some x.pk else none

/-- The `fetch_likes` body as called by the `fetch_all` loop: query the
endpoint at the cursor and return the collected pks with the response. -/
def likesFetchF (pages : List (List SmallRes)) (cur : Option (List (List SmallRes))) :
    List Nat × Option (Response SmallRes (List (List SmallRes))) :=
  (likesPageIds (pagesApi pages cur), pagesApi pages cur)

/-- A full `fetch_likes` run: the decorated loop over all pages followed by
`return_all = update_count_and_get_like_users` on the accumulated distinct
user set. -/
def fetch_likes_run (s₀ : LikeState) (pages : List (List SmallRes)) (fuel : Nat) :
    LikeState × List Nat :=
  let ids := fetchAllLoop (likesFetchF pages) fuel none
  update_count_and_get_like_users s₀ ids.dedup

/-! ### Reactions -/

/-- A resource of a `reactions` page: its `type` value (absent key modelled
as `none`), whether `get_or_create_from_small_resource` recognises it, and
the pk of the resulting user. -/
structure ReactionRes where
  rtype : Option String
  known : Bool
  pk : Nat
deriving DecidableEq, Repr

/-- Python str.upper for the ASCII range, written by structural recursion
over the character list (the library conversion does not reduce
definitionally, which concrete evaluation needs). -/
def charUpper (c : Char) : Char :=
  if 97 ≤ c.toNat && c.toNat ≤ 122 then Char.ofNat (c.toNat - 32) else c

/-- The upper-cased string, modelling the `.upper()` calls of the source. -/
def pyUpper (s : String) : String := ⟨s.data.map charUpper⟩

/-- `reaction_types` (without `like`, as in the source). -/
def reaction_types : List String :=
  ["love", "wow", "haha", "sad", "angry", "thankful"]

/-- The keys of the `ids` dictionary: the upper-cased reaction types plus
`LIKE`. -/
def reactionKeys : List String :=
  reaction_types.map pyUpper ++ ["LIKE"]

/-- The treatment of one resource of a `reactions` page for the dictionary
key `t`: an entry without a `type` key is skipped (`KeyError`), a
requested-reaction mismatch is skipped, an `UnknownResourceType` resource is
skipped, and a resource contributes its user pk exactly when its raw `type`
equals `t`. -/
def reactionResFn (reaction : Option String) (t : String) (r : ReactionRes) : Option Nat :=
  match r.rtype with
  | none => none
  | some ty =>
    if (match reaction with | some rc => decide (pyUpper rc ≠ ty) | none => false) then none
    else if r.known && (ty == t) then some r.pk else none

/-- The `ids[t]` list built by the resource loop of `fetch_reactions`. -/
def reactionIds (reaction : Option String) (data : List ReactionRes) (t : String) : List Nat :=
  data.filterMap (reactionResFn reaction t)

/-- `fetch_reactions` returns a dictionary keyed by upper-cased type, or the
single entry of the requested reaction. -/
inductive ReactionsResult
  | dict : List (String × List Nat) → ReactionsResult
  | single : List Nat → ReactionsResult
deriving DecidableEq, Repr

/-- The per-type result entry: the `fetch_all`-wrapped `get_user_ids` is
called on the ids collected from the initial `api_call` response together
with that same response, and ignores the paging cursor on every iteration. -/
def reactionEntry (reaction : Option String) (pages : List (List ReactionRes))
    (fuel : Nat) (t : String) : List Nat :=
  let resp0 := pagesResp pages
  let data := match resp0 with | none => [] | some r => r.data
  (fetchAllLoop (fun _ => ((reactionIds reaction data t).dedup, resp0)) fuel none).dedup

/-- `fetch_reactions`: build the per-type entries (skipping the other types
when a reaction is requested) and return either the dictionary or the
requested entry; a requested reaction outside the dictionary keys raises
`KeyError`. -/
def fetch_reactions_run (reaction : Option String) (pages : List (List ReactionRes))
    (fuel : Nat) : Except String ReactionsResult :=
  let entries := reactionKeys.filterMap fun t =>
    match reaction with
    | some rc => if pyUpper rc == t then some (t, reactionEntry reaction pages fuel t) else none
    | none => some (t, reactionEntry reaction pages fuel t)
  match reaction with
  | some rc =>
    match entries.lookup (pyUpper rc) with
    | some v => .ok (.single v)
    | none => .error "KeyError"
  | none => .ok (.dict entries)

/-- The per-reaction user set and count fields written by
`update_count_and_get_users_builder reaction`. -/
structure ReactionUsersState where
  users : List Nat
  count : Option Nat
  saved : Bool
deriving DecidableEq, Repr

/-- `update_count_and_get_reaction_users` (the closure built by
`update_count_and_get_users_builder`): assigns the user set and its
cardinality and saves. -/
def update_count_and_get_reaction_users (_s : ReactionUsersState) (instances : List Nat) :
    ReactionUsersState × List Nat :=
  ({ users := instances, count := some instances.length, saved := true }, instances)

/-! ### Counts -/

/-- The count fields read by `count_reactions` (all nullable). -/
structure ReactionCountsState where
  loves_count : Option Nat
  wows_count : Option Nat
  hahas_count : Option Nat
  sads_count : Option Nat
  angrys_count : Option Nat
  thankfuls_count : Option Nat
  likes_count : Option Nat
  reactions_count : Option Nat
  saved : Bool
deriving DecidableEq, Repr

/-- `count_reactions`: `count += getattr(self, '{0}s_count'.format(reaction))`
over the six reaction types and `like`; a null addend raises `TypeError`,
otherwise `reactions_count` is set to the sum and the record saved. -/
def count_reactions (s : ReactionCountsState) : Except String ReactionCountsState :=
  match s.loves_count, s.wows_count, s.hahas_count, s.sads_count,
        s.angrys_count, s.thankfuls_count, s.likes_count with
  | some l, some w, some h, some sa, some an, some th, some li =>
    .ok { s with reactions_count := some (l + w + h + sa + an + th + li), saved := true }
  | _, _, _, _, _, _, _ => .error "TypeError"

/-- The count attributes read by `ActionableModelMixin.save`: `none` models
an attribute that is missing or null (both make `getattr(self, name, None)`
yield `None`). -/
structure ActionableState where
  likes_count : Option Nat
  shares_count : Option Nat
  comments_count : Option Nat
  loves_count : Option Nat
  wows_count : Option Nat
  hahas_count : Option Nat
  sads_count : Option Nat
  angrys_count : Option Nat
  thankfuls_count : Option Nat
  actions_count : Option Nat
deriving DecidableEq, Repr

/-- `ActionableModelMixin.save`: `likes_count`, `shares_count` and
`comments_count` are guarded by `or 0`, the six reaction counts are added
unguarded, so a missing or null reaction count raises `TypeError`. -/
def ActionableModelMixin_save (a : ActionableState) : Except String ActionableState :=
  let base := a.likes_count.getD 0 + a.shares_count.getD 0 + a.comments_count.getD 0
  match a.loves_count, a.wows_count, a.hahas_count, a.sads_count,
        a.angrys_count, a.thankfuls_count with
  | some lo, some wo, some ha, some sa, some an, some th =>
    .ok { a with actions_count := some (base + lo + wo + ha + sa + an + th) }
  | _, _, _, _, _, _ => .error "TypeError"

/-- The current `shares_users` set of a record: the users of its active
association edges (the m2m-history current queryset), distinct. -/
def shares_users_current (s : ShareState) : List Nat :=
  ((s.edges.filter fun e => e.time_to.isNone).map Edge.user_pk).dedup

/-! Theorems. -/

theorem update_shares_keeps_edges (s : ShareState) (inst : List Nat) :
    (update_count_and_get_shares_users s inst).1.edges = s.edges := by
  unfold update_count_and_get_shares_users
  split <;> rfl

theorem update_shares_snd (s : ShareState) (inst : List Nat) :
    (update_count_and_get_shares_users s inst).2 = inst := by
  unfold update_count_and_get_shares_users
  split <;> rfl

theorem mem_ids_current (pk2g : Nat → Nat) (edges : List Edge) (g : Nat) :
    g ∈ ids_current_of pk2g edges ↔
      ∃ e, e ∈ edges ∧ e.time_to = none ∧ e.time_from ≠ none ∧ pk2g e.user_pk = g := by
  unfold ids_current_of
  simp only [List.mem_map, List.mem_filter, Bool.and_eq_true, Option.isNone_iff_eq_none,
    Option.isSome_iff_ne_none]
  constructor
  · rintro ⟨e, ⟨he, h1, h2⟩, h3⟩
    exact ⟨e, he, h1, h2, h3⟩
  · rintro ⟨e, he, h1, h2, h3⟩
    exact ⟨e, ⟨he, h1, h2⟩, h3⟩

theorem mem_ids_add (pk2g : Nat → Nat) (edges : List Edge) (data : List SharePost) (g : Nat) :
    g ∈ ids_add_of pk2g edges data ↔
      g ∈ ids_new_of data ∧ g ∉ ids_current_of pk2g edges := by
  unfold ids_add_of
  simp [List.mem_filter]

theorem mem_ids_remove (pk2g : Nat → Nat) (edges : List Edge) (data : List SharePost) (g : Nat) :
    g ∈ ids_remove_of pk2g edges data ↔
      g ∈ ids_current_of pk2g edges ∧ g ∉ ids_new_of data := by
  unfold ids_remove_of
  simp [List.mem_filter]

theorem sharesLoopStep_pairs_mono (g2pk : Nat → Nat) (A : List Nat)
    (acc : List Nat × List (Nat × Nat)) (p : SharePost) (q : Nat × Nat)
    (h : q ∈ acc.2) : q ∈ (sharesLoopStep g2pk A acc p).2 := by
  unfold sharesLoopStep
  cases p.fromRes with
  | none => exact h
  | some f =>
    dsimp only
    split
    · split
      · split
        · exact List.mem_append_left _ h
        · exact h
      · exact h
    · exact h

theorem sharesLoop_pairs_mono (g2pk : Nat → Nat) (A : List Nat) (posts : List SharePost) :
    ∀ (acc : List Nat × List (Nat × Nat)) (q : Nat × Nat), q ∈ acc.2 →
      q ∈ (posts.foldl (sharesLoopStep g2pk A) acc).2 := by
  induction posts with
  | nil => intro acc q h; exact h
  | cons p rest ih =>
    intro acc q h
    rw [List.foldl_cons]
    exact ih _ _ (sharesLoopStep_pairs_mono _ _ _ _ _ h)

theorem sharesLoopStep_pairs_shape (g2pk : Nat → Nat) (A : List Nat)
    (acc : List Nat × List (Nat × Nat)) (p : SharePost) (q : Nat × Nat)
    (h : q ∈ (sharesLoopStep g2pk A acc p).2) :
    q ∈ acc.2 ∨ (q.1 ∈ A ∧ q.2 = g2pk q.1) := by
  unfold sharesLoopStep at h
  cases hp : p.fromRes with
  | none => rw [hp] at h; exact Or.inl h
  | some f =>
    rw [hp] at h
    dsimp only at h
    split at h
    · split at h
      · split at h
        · next hc =>
          rcases List.mem_append.mp h with h' | h'
          · exact Or.inl h'
          · have hq := List.mem_singleton.mp h'
            subst hq
            exact Or.inr ⟨hc.1, rfl⟩
        · exact Or.inl h
      · exact Or.inl h
    · exact Or.inl h

theorem sharesLoop_pairs_shape (g2pk : Nat → Nat) (A : List Nat) (posts : List SharePost) :
    ∀ (acc : List Nat × List (Nat × Nat)) (q : Nat × Nat),
      q ∈ (posts.foldl (sharesLoopStep g2pk A) acc).2 →
      q ∈ acc.2 ∨ (q.1 ∈ A ∧ q.2 = g2pk q.1) := by
  induction posts with
  | nil => intro acc q h; exact Or.inl h
  | cons p rest ih =>
    intro acc q h
    rw [List.foldl_cons] at h
    rcases ih _ _ h with h' | h'
    · exact sharesLoopStep_pairs_shape _ _ _ _ _ h'
    · exact Or.inr h'

theorem sharesLoop_pairs_cover (g2pk : Nat → Nat) (A : List Nat) (posts : List SharePost) :
    ∀ (acc : List Nat × List (Nat × Nat)) (g : Nat), g ∈ A →
      (g ∈ acc.2.map Prod.fst ∨ ∃ p, p ∈ posts ∧ ∃ f, p.fromRes = some f ∧
        goodFrom f = true ∧ f.known = true ∧ f.id = some g) →
      g ∈ (posts.foldl (sharesLoopStep g2pk A) acc).2.map Prod.fst := by
  induction posts with
  | nil =>
    intro acc g _ h
    rcases h with h | ⟨p, hp, _⟩
    · exact h
    · exact absurd hp (List.not_mem_nil p)
  | cons p rest ih =>
    intro acc g hA h
    rw [List.foldl_cons]
    apply ih _ _ hA
    rcases h with h | ⟨p', hp', f, hf, hgood, hknown, hid⟩
    · left
      obtain ⟨q, hq, hq1⟩ := List.mem_map.mp h
      exact List.mem_map.mpr ⟨q, sharesLoopStep_pairs_mono _ _ _ _ _ hq, hq1⟩
    · rcases List.mem_cons.mp hp' with rfl | hmem
      · left
        unfold sharesLoopStep
        rw [hf]
        dsimp only
        rw [hid]
        simp only [Option.getD_some, hgood, hknown, if_true]
        by_cases hin : g ∈ acc.2.map Prod.fst
        · rw [if_neg (by simp [hin])]
          exact hin
        · rw [if_pos ⟨hA, hin⟩]
          simp
      · exact Or.inr ⟨p', hmem, f, hf, hgood, hknown, hid⟩

theorem sharesLoopStep_ids (g2pk : Nat → Nat) (A : List Nat)
    (acc : List Nat × List (Nat × Nat)) (p : SharePost) :
    (sharesLoopStep g2pk A acc p).1 = acc.1 ++ (p.fromRes.bind fun f =>
      if goodFrom f && f.known then some (g2pk (f.id.getD 0)) else none).toList := by
  unfold sharesLoopStep
  cases p.fromRes with
  | none => simp
  | some f =>
    dsimp only
    cases h1 : goodFrom f with
    | false => simp [h1]
    | true =>
      cases h2 : f.known with
      | false => simp [h1, h2]
      | true =>
        simp only [h1, h2, if_true, Bool.and_self, Option.some_bind]
        split <;> simp

theorem sharesLoop_ids (g2pk : Nat → Nat) (A : List Nat) (posts : List SharePost) :
    ∀ (acc : List Nat × List (Nat × Nat)),
      (posts.foldl (sharesLoopStep g2pk A) acc).1 =
        acc.1 ++ posts.filterMap (fun p => p.fromRes.bind fun f =>
          if goodFrom f && f.known then some (g2pk (f.id.getD 0)) else none) := by
  induction posts with
  | nil => intro acc; simp
  | cons p rest ih =>
    intro acc
    rw [List.foldl_cons, List.filterMap_cons, ih]
    cases h : (p.fromRes.bind fun f =>
        if goodFrom f && f.known then some (g2pk (f.id.getD 0)) else none) with
    | none =>
      rw [sharesLoopStep_ids, h]
      simp
    | some b =>
      rw [sharesLoopStep_ids, h]
      simp

/-- The pks collected by the post loop, as a pure function of the page: one
pk per kept post whose from-resource is well formed and recognised. -/
def share_ids_pure (g2pk : Nat → Nat) (data : List SharePost) : List Nat :=
  (sharePosts data).filterMap fun p => p.fromRes.bind fun f =>
    if goodFrom f && f.known then some (g2pk (f.id.getD 0)) else none

theorem share_ids_of_eq_pure (pk2g g2pk : Nat → Nat) (edges : List Edge)
    (data : List SharePost) :
    share_ids_of pk2g g2pk edges data = share_ids_pure g2pk data := by
  unfold share_ids_of sharesLoop share_ids_pure
  rw [sharesLoop_ids]
  simp

theorem dictLookup_foldl_isSome (g : Nat) (l : List (Nat × Nat)) :
    ∀ acc : Option Nat,
      (l.foldl (fun acc kv => if kv.fst = g then some kv.snd else acc) acc).isSome =
        (acc.isSome || decide (g ∈ l.map Prod.fst)) := by
  induction l with
  | nil => intro acc; simp
  | cons kv rest ih =>
    intro acc
    rw [List.foldl_cons, ih]
    by_cases h : kv.1 = g
    · simp [h]
    · have h' : (g == kv.1) = false := beq_eq_false_iff_ne.mpr (Ne.symm h)
      simp [h, h']

theorem dictLookup_isSome_of_mem (l : List (Nat × Nat)) (g : Nat)
    (h : g ∈ l.map Prod.fst) : ∃ t, dictLookup l g = some t := by
  rw [← Option.isSome_iff_exists]
  unfold dictLookup
  rw [dictLookup_foldl_isSome]
  simp [h]

theorem fetch_shares_page_ok {κ : Type} (pk2g g2pk : Nat → Nat) (s : ShareState)
    (r : Response SharePost κ) (h : sharePageOK r.data = true) :
    fetch_shares_page pk2g g2pk s (some r) =
      .ok (share_ids_of pk2g g2pk s.edges r.data,
           { s with edges := kept_edges_of pk2g g2pk s r.data ++
                             new_edges_of pk2g g2pk s r.data }) := by
  simp only [fetch_shares_page]
  rw [if_pos h]

theorem fetch_shares_page_pageOK {κ : Type} (pk2g g2pk : Nat → Nat) (s : ShareState)
    (r : Response SharePost κ) (ids : List Nat) (s' : ShareState)
    (hok : fetch_shares_page pk2g g2pk s (some r) = .ok (ids, s')) :
    sharePageOK r.data = true := by
  by_contra h
  simp only [fetch_shares_page] at hok
  rw [if_neg h] at hok
  exact Except.noConfusion hok

theorem addPks_shape (pk2g g2pk : Nat → Nat) (s : ShareState) (data : List SharePost)
    (pk : Nat) (h : pk ∈ (ids_add_pairs_of pk2g g2pk s.edges data).map Prod.snd) :
    ∃ g, g ∈ ids_add_of pk2g s.edges data ∧ pk = g2pk g := by
  obtain ⟨q, hq, hq2⟩ := List.mem_map.mp h
  rcases sharesLoop_pairs_shape g2pk _ _ _ _ hq with h' | ⟨hA, hgp⟩
  · exact absurd h' (List.not_mem_nil q)
  · exact ⟨q.1, hA, by rw [← hq2, hgp]⟩

theorem shares_page_keeps_timestamped {κ : Type} (pk2g g2pk : Nat → Nat)
    (s : ShareState) (resp : Option (Response SharePost κ)) (ids : List Nat)
    (s' : ShareState) (hpg : ∀ g, pk2g (g2pk g) = g)
    (hok : fetch_shares_page pk2g g2pk s resp = .ok (ids, s')) :
    ∀ e, e ∈ s.edges → e.time_from ≠ none → e ∈ s'.edges := by
  intro e he htf
  cases resp with
  | none =>
    have h : (([], s) : List Nat × ShareState) = (ids, s') := Except.ok.inj hok
    have h2 : s = s' := congrArg Prod.snd h
    rw [← h2]
    exact he
  | some r =>
    have hOK := fetch_shares_page_pageOK pk2g g2pk s r ids s' hok
    rw [fetch_shares_page_ok pk2g g2pk s r hOK] at hok
    have h := Except.ok.inj hok
    have h2 := congrArg Prod.snd h
    dsimp only at h2
    rw [← h2]
    dsimp only
    apply List.mem_append_left
    apply List.mem_filter.mpr
    refine ⟨List.mem_filter.mpr ⟨he, ?_⟩, ?_⟩
    · cases htf' : e.time_from with
      | none => exact absurd htf' htf
      | some t => simp [htf']
    · cases hto : e.time_to with
      | some t => simp [hto]
      | none =>
        simp only [hto, Option.isNone_none, Bool.true_and, Bool.not_eq_true',
          decide_eq_false_iff_not]
        intro hmem
        obtain ⟨g, hgA, hpk⟩ := addPks_shape pk2g g2pk s r.data e.user_pk hmem
        have hgcur : g ∈ ids_current_of pk2g s.edges := by
          rw [mem_ids_current]
          exact ⟨e, he, hto, htf, by rw [hpk, hpg]⟩
        exact ((mem_ids_add pk2g s.edges r.data g).mp hgA).2 hgcur

theorem fetch_shares_step_keeps (pk2g g2pk : Nat → Nat) (pages : List (List SharePost))
    (s : ShareState) (cur : Option (List (List SharePost))) (ids : List Nat)
    (s' : ShareState) (resp : Option (Response SharePost (List (List SharePost))))
    (hpg : ∀ g, pk2g (g2pk g) = g)
    (h : fetch_shares_step pk2g g2pk pages s cur = .ok (ids, s', resp)) :
    ∀ e, e ∈ s.edges → e.time_from ≠ none → e ∈ s'.edges := by
  unfold fetch_shares_step at h
  cases hpage : fetch_shares_page pk2g g2pk s (pagesApi pages cur) with
  | error err => rw [hpage] at h; exact Except.noConfusion h
  | ok pr =>
    obtain ⟨i2, s2⟩ := pr
    rw [hpage] at h
    have h' := Except.ok.inj h
    have hs : s2 = s' := congrArg (fun x => x.2.1) h'
    rw [← hs]
    exact shares_page_keeps_timestamped pk2g g2pk s (pagesApi pages cur) i2 s2 hpg hpage

theorem fetchAllLoopE_keeps (pk2g g2pk : Nat → Nat) (pages : List (List SharePost))
    (hpg : ∀ g, pk2g (g2pk g) = g) :
    ∀ (fuel : Nat) (s : ShareState) (cur : Option (List (List SharePost)))
      (ids : List Nat) (s₁ : ShareState),
      fetchAllLoopE (fetch_shares_step pk2g g2pk pages) fuel s cur = .ok (ids, s₁) →
      ∀ e, e ∈ s.edges → e.time_from ≠ none → e ∈ s₁.edges := by
  intro fuel
  induction fuel with
  | zero =>
    intro s cur ids s₁ h e he htf
    have h' := Except.ok.inj h
    have hs : s = s₁ := congrArg Prod.snd h'
    rw [← hs]
    exact he
  | succ n ih =>
    intro s cur ids s₁ h e he htf
    simp only [fetchAllLoopE] at h
    cases hstep : fetch_shares_step pk2g g2pk pages s cur with
    | error err => rw [hstep] at h; exact Except.noConfusion h
    | ok out =>
      obtain ⟨ids0, s', resp⟩ := out
      rw [hstep] at h
      have he' : e ∈ s'.edges :=
        fetch_shares_step_keeps pk2g g2pk pages s cur ids0 s' resp hpg hstep e he htf
      cases resp with
      | none =>
        have h' := Except.ok.inj h
        have hs : s' = s₁ := congrArg Prod.snd h'
        rw [← hs]
        exact he'
      | some r =>
        obtain ⟨rdata, rafter⟩ := r
        cases rafter with
        | none =>
          have h' := Except.ok.inj h
          have hs : s' = s₁ := congrArg Prod.snd h'
          rw [← hs]
          exact he'
        | some c =>
          dsimp only at h
          cases hrec : fetchAllLoopE (fetch_shares_step pk2g g2pk pages) n s' (some c) with
          | error err => rw [hrec] at h; exact Except.noConfusion h
          | ok pr2 =>
            obtain ⟨ids2, s2⟩ := pr2
            rw [hrec] at h
            have h' := Except.ok.inj h
            have hs : s2 = s₁ := congrArg Prod.snd h'
            rw [← hs]
            exact ih s' (some c) ids2 s2 hrec e he' htf

/-- C10: `ActionableModelMixin.save` treats a missing or null `likes_count`,
`shares_count` or `comments_count` as zero, but adds the six reaction counts
without such a guard: it completes exactly when all six reaction counts are
present numbers, in which case `actions_count` is the guarded base plus the
six reaction counts, and raises `TypeError` otherwise. -/
theorem C10_actionable_save (a : ActionableState) :
    ((∃ v, ActionableModelMixin_save a = .ok v) ↔
      a.loves_count.isSome ∧ a.wows_count.isSome ∧ a.hahas_count.isSome ∧
      a.sads_count.isSome ∧ a.angrys_count.isSome ∧ a.thankfuls_count.isSome) ∧
    (∀ v, ActionableModelMixin_save a = .ok v →
      v.actions_count = some (a.likes_count.getD 0 + a.shares_count.getD 0 +
        a.comments_count.getD 0 + a.loves_count.getD 0 + a.wows_count.getD 0 +
        a.hahas_count.getD 0 + a.sads_count.getD 0 + a.angrys_count.getD 0 +
        a.thankfuls_count.getD 0)) ∧
    (¬ (a.loves_count.isSome ∧ a.wows_count.isSome ∧ a.hahas_count.isSome ∧
        a.sads_count.isSome ∧ a.angrys_count.isSome ∧ a.thankfuls_count.isSome) →
      ActionableModelMixin_save a = .error "TypeError") := by
  obtain ⟨lk, sh, cm, lo, wo, ha, sa, an, th, ac⟩ := a
  cases lo <;> cases wo <;> cases ha <;> cases sa <;> cases an <;> cases th <;>
    simp [ActionableModelMixin_save]

theorem C10_witness :
    (⟨none, some 4, none, some 1, some 1, some 1, some 1, some 1, some 1, some 10⟩ :
      ActionableState).actions_count = some 10 := by
  have h := (C10_actionable_save
    ⟨none, some 4, none, some 1, some 1, some 1, some 1, some 1, some 1, none⟩).2.1
    ⟨none, some 4, none, some 1, some 1, some 1, some 1, some 1, some 1, some 10⟩ rfl
  rw [h]
  decide

/-- C5 counterexample: on a record whose `loves_count` is null (as the field
is nullable), `count_reactions` raises `TypeError` instead of setting
`reactions_count` and saving, so the claim fails for that record. -/
theorem C5_cex :
    count_reactions ⟨none, some 1, some 1, some 1, some 1, some 1, some 1, none, false⟩ =
      .error "TypeError" := rfl

/-- C5 amended: on every record whose seven per-category counts (the six
reaction counts and `likes_count`) are all non-null, `count_reactions` sets
`reactions_count` to their sum and saves the record. -/
theorem C5_count_reactions_sum (s : ReactionCountsState)
    (h : s.loves_count.isSome ∧ s.wows_count.isSome ∧ s.hahas_count.isSome ∧
         s.sads_count.isSome ∧ s.angrys_count.isSome ∧ s.thankfuls_count.isSome ∧
         s.likes_count.isSome) :
    count_reactions s = .ok { s with
      reactions_count := some (s.loves_count.getD 0 + s.wows_count.getD 0 +
        s.hahas_count.getD 0 + s.sads_count.getD 0 + s.angrys_count.getD 0 +
        s.thankfuls_count.getD 0 + s.likes_count.getD 0),
      saved := true } := by
  obtain ⟨h1, h2, h3, h4, h5, h6, h7⟩ := h
  obtain ⟨a1, e1⟩ := Option.isSome_iff_exists.mp h1
  obtain ⟨a2, e2⟩ := Option.isSome_iff_exists.mp h2
  obtain ⟨a3, e3⟩ := Option.isSome_iff_exists.mp h3
  obtain ⟨a4, e4⟩ := Option.isSome_iff_exists.mp h4
  obtain ⟨a5, e5⟩ := Option.isSome_iff_exists.mp h5
  obtain ⟨a6, e6⟩ := Option.isSome_iff_exists.mp h6
  obtain ⟨a7, e7⟩ := Option.isSome_iff_exists.mp h7
  obtain ⟨lo, wo, ha, sa, an, th, li, rc, sv⟩ := s
  simp_all [count_reactions]

theorem C5_witness :
    count_reactions ⟨some 2, some 1, some 1, some 1, some 1, some 1, some 3, none, false⟩ =
      .ok ⟨some 2, some 1, some 1, some 1, some 1, some 1, some 3, some 10, true⟩ :=
  C5_count_reactions_sum _ (by decide)

/-- C7 counterexample: an association edge with no end time but a null
`time_from` is excluded from the locally current set used by the share
reconciliation, although the claim says every edge without an end time is
included. -/
theorem C7_cex :
    (⟨1, none, none⟩ : Edge).time_to = none ∧
    1 ∉ ids_current_of id [⟨1, none, none⟩] := by
  refine ⟨rfl, by decide⟩

/-- C7 amended: the locally current association set used by the share
reconciliation consists exactly of the edges with no end time AND a non-null
`time_from`: a graph id is in the set iff some edge of the record is active
and carries a start timestamp and maps to it. -/
theorem C7_ids_current (pk2g : Nat → Nat) (edges : List Edge) (g : Nat) :
    g ∈ ids_current_of pk2g edges ↔
      ∃ e, e ∈ edges ∧ e.time_to = none ∧ e.time_from ≠ none ∧ pk2g e.user_pk = g := by
  unfold ids_current_of
  simp only [List.mem_map, List.mem_filter, Bool.and_eq_true, Option.isNone_iff_eq_none,
    Option.isSome_iff_ne_none]
  constructor
  · rintro ⟨e, ⟨he, h1, h2⟩, h3⟩
    exact ⟨e, he, h1, h2, h3⟩
  · rintro ⟨e, he, h1, h2, h3⟩
    exact ⟨e, ⟨he, h1, h2⟩, h3⟩

/-- C3 counterexample: a full `fetch_shares` run on a record whose
`shares_count` is already non-null leaves the count at its old value even
though the associated current user set has a different cardinality, so the
counts-mirror-cardinality invariant fails for the share mixin. -/
theorem C3_cex :
    fetch_shares_run id id ⟨[], some 5, some 7, false⟩
        [[⟨some ⟨some 2, true, false, true⟩, some 5⟩]] 3 =
      .ok (⟨[⟨2, some 5, none⟩], some 5, some 7, false⟩, [2]) ∧
    (⟨[⟨2, some 5, none⟩], some 5, some 7, false⟩ : ShareState).shares_count ≠
      some (shares_users_current ⟨[⟨2, some 5, none⟩], some 5, some 7, false⟩).length := by
  refine ⟨rfl, by decide⟩

/-- C3 amended: after `fetch_likes` and after each reaction fetch the count
field equals the cardinality of the stored user set; `fetch_shares` however
does not assign `shares_users` and sets `shares_count` (to the fetched
instance-set size) only when it was previously null, so for shares the
invariant is not established. -/
theorem C3_counts :
    (∀ (s : LikeState) (inst : List Nat),
      (update_count_and_get_like_users s inst).1.likes_count =
        some (update_count_and_get_like_users s inst).1.likes_users.length) ∧
    (∀ (s : ReactionUsersState) (inst : List Nat),
      (update_count_and_get_reaction_users s inst).1.count =
        some (update_count_and_get_reaction_users s inst).1.users.length) ∧
    (∀ (s₀ : LikeState) (pages : List (List SmallRes)) (fuel : Nat),
      (fetch_likes_run s₀ pages fuel).1.likes_users.Nodup ∧
      (fetch_likes_run s₀ pages fuel).1.likes_count =
        some (fetch_likes_run s₀ pages fuel).1.likes_users.length) ∧
    (∀ (s : ShareState) (inst : List Nat),
      (update_count_and_get_shares_users s inst).1.shares_count =
        (if s.shares_count.isNone then some inst.length else s.shares_count) ∧
      (update_count_and_get_shares_users s inst).1.edges = s.edges) := by
  refine ⟨fun s inst => rfl, fun s inst => rfl, fun s₀ pages fuel => ?_, fun s inst => ?_⟩
  · exact ⟨List.nodup_dedup _, rfl⟩
  · constructor
    · unfold update_count_and_get_shares_users
      split <;> simp_all
    · exact update_shares_keeps_edges s inst

/-- C4 counterexample: a `sharedposts` entry that has a `from` value but no
`created_time` key makes `fetch_shares` raise an uncaught `KeyError` in the
`timestamps` dict comprehension, so a malformed entry is not always skipped
and an error does propagate to the caller. -/
theorem C4_cex :
    fetch_shares_page (κ := Unit) id id ⟨[], none, some 7, false⟩
        (some ⟨[⟨some ⟨some 1, true, false, true⟩, none⟩], none⟩) =
      .error "KeyError" := rfl

/-- C1 counterexample: on a non-empty remote page, a user in the computed
removal set (locally current minus remote) keeps its association edge active
and un-ended: `ids_remove` is computed but never applied. -/
theorem C1_cex :
    ids_remove_of id [⟨1, some 0, none⟩] [⟨some ⟨some 2, true, false, true⟩, some 5⟩] = [1] ∧
    fetch_shares_page (κ := Unit) id id ⟨[⟨1, some 0, none⟩], none, some 7, false⟩
        (some ⟨[⟨some ⟨some 2, true, false, true⟩, some 5⟩], none⟩) =
      .ok ([2], ⟨[⟨1, some 0, none⟩, ⟨2, some 5, none⟩], none, some 7, false⟩) ∧
    (⟨1, some 0, none⟩ : Edge) ∈
      (⟨[⟨1, some 0, none⟩, ⟨2, some 5, none⟩], none, some 7, false⟩ : ShareState).edges ∧
    (⟨1, some 0, none⟩ : Edge).time_to = none := by
  refine ⟨rfl, rfl, by decide, rfl⟩

/-- C2: `fetch_shares` never deletes an association edge whose `time_from`
is non-null: under a consistent user table (the `graph_id` of the user
created for a remote graph id is that graph id) every edge of the record
carrying a start timestamp is still present after a whole run, so the
historical validity windows on existing associations are preserved. -/
theorem C2_fetch_shares_preserves (pk2g g2pk : Nat → Nat) (s₀ : ShareState)
    (pages : List (List SharePost)) (fuel : Nat) (s' : ShareState) (ret : List Nat)
    (hpg : ∀ g, pk2g (g2pk g) = g)
    (hok : fetch_shares_run pk2g g2pk s₀ pages fuel = .ok (s', ret)) :
    ∀ e, e ∈ s₀.edges → e.time_from ≠ none → e ∈ s'.edges := by
  intro e he htf
  unfold fetch_shares_run at hok
  cases hloop : fetchAllLoopE (fetch_shares_step pk2g g2pk pages) fuel s₀ none with
  | error err => rw [hloop] at hok; exact Except.noConfusion hok
  | ok pr =>
    obtain ⟨ids, s1⟩ := pr
    rw [hloop] at hok
    have h' := Except.ok.inj hok
    have hs : (update_count_and_get_shares_users s1 ids.dedup).1 = s' :=
      congrArg Prod.fst h'
    rw [← hs, update_shares_keeps_edges]
    exact fetchAllLoopE_keeps pk2g g2pk pages hpg fuel s₀ none ids s1 hloop e he htf

theorem C2_witness :
    (⟨1, some 0, none⟩ : Edge) ∈
      (⟨[⟨1, some 0, none⟩, ⟨2, some 5, none⟩], some 1, some 7, true⟩ : ShareState).edges :=
  C2_fetch_shares_preserves id id ⟨[⟨1, some 0, none⟩], none, some 7, false⟩
    [[⟨some ⟨some 2, true, false, true⟩, some 5⟩]] 3
    ⟨[⟨1, some 0, none⟩, ⟨2, some 5, none⟩], some 1, some 7, true⟩ [2]
    (fun _ => rfl) rfl ⟨1, some 0, none⟩ (by decide) (by decide)

theorem ids_add_pairs_shape (pk2g g2pk : Nat → Nat) (edges : List Edge)
    (data : List SharePost) (q : Nat × Nat)
    (hq : q ∈ ids_add_pairs_of pk2g g2pk edges data) :
    q.1 ∈ ids_add_of pk2g edges data ∧ q.2 = g2pk q.1 := by
  rcases sharesLoop_pairs_shape g2pk (ids_add_of pk2g edges data) (sharePosts data)
      ([], []) q hq with h' | h'
  · exact absurd h' (List.not_mem_nil q)
  · exact h'

theorem fetch_shares_page_state {κ : Type} (pk2g g2pk : Nat → Nat) (s : ShareState)
    (r : Response SharePost κ) (ids : List Nat) (s' : ShareState)
    (hok : fetch_shares_page pk2g g2pk s (some r) = .ok (ids, s')) :
    s'.edges = kept_edges_of pk2g g2pk s r.data ++ new_edges_of pk2g g2pk s r.data := by
  have hOK := fetch_shares_page_pageOK pk2g g2pk s r ids s' hok
  rw [fetch_shares_page_ok pk2g g2pk s r hOK] at hok
  have h2 := congrArg Prod.snd (Except.ok.inj hok)
  dsimp only at h2
  rw [← h2]

/-- C1 amended: on every successful run on a remote page, `fetch_shares`
computes the addition set as the remote user-id set minus the locally
current user-id set and the removal set as the locally current user-id set
minus the remote one; additions are applied — every user of the addition
set whose post carries a well-formed, recognised from-resource gains an
active association edge — but the removal set is never applied: every
active time-stamped edge, in particular each one whose user is in the
removal set, survives the run unchanged. -/
theorem C1_diff_and_apply {κ : Type} (pk2g g2pk : Nat → Nat) (s : ShareState)
    (r : Response SharePost κ) (ids : List Nat) (s' : ShareState)
    (hpg : ∀ g, pk2g (g2pk g) = g)
    (hok : fetch_shares_page pk2g g2pk s (some r) = .ok (ids, s')) :
    (∀ g, g ∈ ids_add_of pk2g s.edges r.data ↔
       g ∈ ids_new_of r.data ∧ g ∉ ids_current_of pk2g s.edges) ∧
    (∀ g, g ∈ ids_remove_of pk2g s.edges r.data ↔
       g ∈ ids_current_of pk2g s.edges ∧ g ∉ ids_new_of r.data) ∧
    (∀ p, p ∈ sharePosts r.data → ∀ f, p.fromRes = some f → goodFrom f = true →
       f.known = true → ∀ g, f.id = some g → g ∈ ids_add_of pk2g s.edges r.data →
       ∃ e, e ∈ s'.edges ∧ e.user_pk = g2pk g ∧ e.time_to = none) ∧
    (∀ e, e ∈ s.edges → e.time_to = none → e.time_from ≠ none →
       pk2g e.user_pk ∈ ids_remove_of pk2g s.edges r.data → e ∈ s'.edges) := by
  refine ⟨fun g => mem_ids_add pk2g s.edges r.data g,
          fun g => mem_ids_remove pk2g s.edges r.data g, ?_, ?_⟩
  · intro p hp f hf hgood hknown g hid hgA
    have hcov : g ∈ (ids_add_pairs_of pk2g g2pk s.edges r.data).map Prod.fst :=
      sharesLoop_pairs_cover g2pk (ids_add_of pk2g s.edges r.data) (sharePosts r.data)
        ([], []) g hgA (Or.inr ⟨p, hp, f, hf, hgood, hknown, hid⟩)
    obtain ⟨q, hq, hq1⟩ := List.mem_map.mp hcov
    obtain ⟨_, hq2⟩ := ids_add_pairs_shape pk2g g2pk s.edges r.data q hq
    refine ⟨⟨q.2, get_share_date (timestamps_of r.data) s.created_time q.1, none⟩,
            ?_, ?_, rfl⟩
    · rw [fetch_shares_page_state pk2g g2pk s r ids s' hok]
      apply List.mem_append_right
      exact List.mem_map.mpr ⟨q, hq, rfl⟩
    · dsimp only
      rw [hq2, hq1]
  · intro e he _ htf _
    exact shares_page_keeps_timestamped pk2g g2pk s (some r) ids s' hpg hok e he htf

theorem C1_witness :
    (⟨1, some 0, none⟩ : Edge) ∈
      (⟨[⟨1, some 0, none⟩, ⟨2, some 5, none⟩], none, some 7, false⟩ :
        ShareState).edges :=
  (C1_diff_and_apply (κ := Unit) id id ⟨[⟨1, some 0, none⟩], none, some 7, false⟩
      ⟨[⟨some ⟨some 2, true, false, true⟩, some 5⟩], none⟩ [2]
      ⟨[⟨1, some 0, none⟩, ⟨2, some 5, none⟩], none, some 7, false⟩
      (fun _ => rfl) rfl).2.2.2
    ⟨1, some 0, none⟩ (by decide) rfl (by decide) (by decide)

/-- C6: every association edge newly created by `fetch_shares` is stamped
with a `time_from` validity timestamp equal to `get_share_date` of the added
user's graph id; since every added graph id is a key of the page's timestamp
map, the stamp is always the remote post's parsed `created_time` from the
map (the fall-back to the record's own `created_time` never fires). -/
theorem C6_new_edges_stamped {κ : Type} (pk2g g2pk : Nat → Nat) (s : ShareState)
    (r : Response SharePost κ) (ids : List Nat) (s' : ShareState)
    (hok : fetch_shares_page pk2g g2pk s (some r) = .ok (ids, s')) :
    ∀ e, e ∈ new_edges_of pk2g g2pk s r.data →
      e ∈ s'.edges ∧
      ∃ g t, (g, e.user_pk) ∈ ids_add_pairs_of pk2g g2pk s.edges r.data ∧
        dictLookup (timestamps_of r.data) g = some t ∧
        e.time_from = some t ∧
        e.time_from = get_share_date (timestamps_of r.data) s.created_time g := by
  intro e hmem
  constructor
  · rw [fetch_shares_page_state pk2g g2pk s r ids s' hok]
    exact List.mem_append_right _ hmem
  · unfold new_edges_of at hmem
    obtain ⟨q, hq, hfn⟩ := List.mem_map.mp hmem
    obtain ⟨hA, _⟩ := ids_add_pairs_shape pk2g g2pk s.edges r.data q hq
    have hnew : q.1 ∈ (timestamps_of r.data).map Prod.fst :=
      ((mem_ids_add pk2g s.edges r.data q.1).mp hA).1
    obtain ⟨t, ht⟩ := dictLookup_isSome_of_mem (timestamps_of r.data) q.1 hnew
    have hupk : q.2 = e.user_pk := congrArg Edge.user_pk hfn
    have htfe : get_share_date (timestamps_of r.data) s.created_time q.1 = e.time_from :=
      congrArg Edge.time_from hfn
    have hgsd : get_share_date (timestamps_of r.data) s.created_time q.1 = some t := by
      unfold get_share_date
      rw [ht]
    refine ⟨q.1, t, ?_, ht, ?_, ?_⟩
    · rw [← hupk]
      rw [Prod.mk.eta]
      exact hq
    · rw [← htfe, hgsd]
    · rw [← htfe]

theorem C6_witness :
    (⟨2, some 5, none⟩ : Edge) ∈
      (⟨[⟨1, some 0, none⟩, ⟨2, some 5, none⟩], none, some 7, false⟩ :
        ShareState).edges :=
  (C6_new_edges_stamped (κ := Unit) id id ⟨[⟨1, some 0, none⟩], none, some 7, false⟩
      ⟨[⟨some ⟨some 2, true, false, true⟩, some 5⟩], none⟩ [2]
      ⟨[⟨1, some 0, none⟩, ⟨2, some 5, none⟩], none, some 7, false⟩ rfl
      ⟨2, some 5, none⟩ (by decide)).1

theorem likes_filterMap_eq (data : List SmallRes) :
    data.filterMap (fun x => if x.known then some x.pk else none) =
      (data.filter fun x => x.known).map SmallRes.pk := by
  induction data with
  | nil => rfl
  | cons x rest ih =>
    rw [List.filterMap_cons, List.filter_cons]
    cases hk : x.known with
    | false => simpa [hk] using ih
    | true => simp [hk, ih]

/-- C4 amended: in `fetch_likes` unknown resources are skipped and each
recognised resource contributes its user, with no effect across entries; in
`fetch_reactions` entries without a `type` key and unknown resources are
skipped the same way; in `fetch_shares` the collected pks likewise come only
from the kept posts with a well-formed recognised from-resource, and a page
every kept post of which carries both an id and a created_time produces no
error — but (see the counterexample) a kept post missing either of those
two fields aborts the call. -/
theorem C4_skip :
    (∀ (κ : Type) (r : Response SmallRes κ),
      likesPageIds (some r) = (r.data.filter fun x => x.known).map SmallRes.pk) ∧
    (∀ (reaction : Option String) (data : List ReactionRes) (t : String),
      reactionIds reaction data t =
        reactionIds reaction (data.filter fun x => x.known && x.rtype.isSome) t) ∧
    (∀ (pk2g g2pk : Nat → Nat) (edges : List Edge) (data : List SharePost),
      share_ids_of pk2g g2pk edges data = share_ids_pure g2pk data) ∧
    (∀ (κ : Type) (pk2g g2pk : Nat → Nat) (s : ShareState) (r : Response SharePost κ),
      sharePageOK r.data = true →
      fetch_shares_page pk2g g2pk s (some r) =
        .ok (share_ids_of pk2g g2pk s.edges r.data,
             { s with edges := kept_edges_of pk2g g2pk s r.data ++
                               new_edges_of pk2g g2pk s r.data })) := by
  refine ⟨fun κ r => likes_filterMap_eq r.data, fun reaction data t => ?_,
          fun pk2g g2pk edges data => share_ids_of_eq_pure pk2g g2pk edges data,
          fun κ pk2g g2pk s r h => fetch_shares_page_ok pk2g g2pk s r h⟩
  induction data with
  | nil => rfl
  | cons x rest ih =>
    unfold reactionIds at ih ⊢
    rw [List.filterMap_cons, List.filter_cons]
    cases hx : x.rtype with
    | none =>
      have hfx : reactionResFn reaction t x = none := by
        unfold reactionResFn
        rw [hx]
      rw [hfx, if_neg (by simp [hx])]
      exact ih
    | some ty =>
      cases hk : x.known with
      | false =>
        have hfx : reactionResFn reaction t x = none := by
          unfold reactionResFn
          rw [hx, hk]
          split <;> simp
        rw [hfx, if_neg (by simp [hk])]
        exact ih
      | true =>
        rw [if_pos (by simp [hx, hk]), List.filterMap_cons, ih]

theorem C4_witness :
    fetch_shares_page (κ := Unit) id id ⟨[], none, some 7, false⟩ (some ⟨[], none⟩) =
      .ok (share_ids_of id id [] [],
           ⟨kept_edges_of id id ⟨[], none, some 7, false⟩ [] ++
              new_edges_of id id ⟨[], none, some 7, false⟩ [], none, some 7, false⟩) :=
  C4_skip.2.2.2 Unit id id ⟨[], none, some 7, false⟩ ⟨[], none⟩ (by decide)

theorem filterMap_all_some {α β : Type} (l : List α) (f : α → β) :
    l.filterMap (fun x => some (f x)) = l.map f := by
  induction l with
  | nil => rfl
  | cons x rest ih =>
    rw [List.filterMap_cons]
    simp [ih]

theorem reactionKeys_single (u : String) (f : String → String × List Nat)
    (hu : u ∈ reactionKeys) :
    (reactionKeys.filterMap fun t => if u == t then some (f t) else none) = [f u] := by
  fin_cases hu <;> rfl

theorem map_fst_pairs {α β : Type} (l : List α) (f : α → β) :
    (l.map fun t => (t, f t)).map Prod.fst = l := by
  induction l with
  | nil => rfl
  | cons x rest ih => simp [ih]

theorem lookup_single (u : String) (v : List Nat) :
    List.lookup u [(u, v)] = some v := by
  simp [List.lookup]

theorem reactionIds_requested (rc : String) (data : List ReactionRes) (t : String) :
    reactionIds (some rc) data t =
      reactionIds none (data.filter fun x => x.rtype == some (pyUpper rc)) t := by
  induction data with
  | nil => rfl
  | cons x rest ih =>
    unfold reactionIds at ih ⊢
    rw [List.filterMap_cons, List.filter_cons]
    cases hx : x.rtype with
    | none =>
      have hfx : reactionResFn (some rc) t x = none := by
        unfold reactionResFn
        rw [hx]
      rw [hfx, if_neg (by simp [hx])]
      exact ih
    | some ty =>
      by_cases hty : pyUpper rc = ty
      · rw [if_pos (by simp [hx, hty])]
        rw [List.filterMap_cons]
        have hfeq : reactionResFn (some rc) t x = reactionResFn none t x := by
          unfold reactionResFn
          rw [hx]
          dsimp only
          rw [if_neg (by simp [hty])]
          rfl
        rw [hfeq, ih]
      · have hfx : reactionResFn (some rc) t x = none := by
          unfold reactionResFn
          rw [hx]
          dsimp only
          rw [if_pos (by simp [hty])]
        rw [hfx, if_neg (by simp [hx]; exact fun h => hty h.symm)]
        exact ih

/-- C9: `fetch_reactions` returns two shapes: with `reaction = None` it
returns the dictionary keyed by the seven upper-cased type names (the six
reaction types and LIKE) with one user-set entry per key; with a valid
specific reaction it returns only that reaction's single entry, and the
resources of every other type are filtered out of processing. -/
theorem C9_fetch_reactions_shape :
    (∀ (pages : List (List ReactionRes)) (fuel : Nat),
      fetch_reactions_run none pages fuel =
        .ok (.dict (reactionKeys.map fun t => (t, reactionEntry none pages fuel t))) ∧
      (reactionKeys.map fun t => (t, reactionEntry none pages fuel t)).map Prod.fst =
        reactionKeys) ∧
    (∀ (rc : String) (pages : List (List ReactionRes)) (fuel : Nat),
      pyUpper rc ∈ reactionKeys →
      fetch_reactions_run (some rc) pages fuel =
        .ok (.single (reactionEntry (some rc) pages fuel (pyUpper rc)))) ∧
    (∀ (rc : String) (data : List ReactionRes) (t : String),
      reactionIds (some rc) data t =
        reactionIds none (data.filter fun x => x.rtype == some (pyUpper rc)) t) := by
  refine ⟨fun pages fuel => ⟨?_, ?_⟩, fun rc pages fuel hu => ?_,
          fun rc data t => reactionIds_requested rc data t⟩
  · unfold fetch_reactions_run
    dsimp only
    rw [filterMap_all_some reactionKeys (fun t => (t, reactionEntry none pages fuel t))]
  · exact map_fst_pairs reactionKeys (fun t => reactionEntry none pages fuel t)
  · unfold fetch_reactions_run
    dsimp only
    rw [reactionKeys_single (pyUpper rc)
        (fun t => (t, reactionEntry (some rc) pages fuel t)) hu]
    rw [lookup_single]

theorem C9_witness :
    fetch_reactions_run (some "like") [] 0 =
      .ok (.single (reactionEntry (some "like") [] 0 "LIKE")) :=
  C9_fetch_reactions_shape.2.1 "like" [] 0 (by decide)

/-- C8 counterexample: on a two-page reactions collection, the returned
LIKE entry contains only the first page's user (pk 1) although the second
page carries a further LIKE resource (pk 9): `fetch_reactions` does not
cover every page. -/
theorem C8_cex :
    fetch_reactions_run none [[⟨some "LIKE", true, 1⟩], [⟨some "LIKE", true, 9⟩]] 5 =
      .ok (.dict [("LOVE", []), ("WOW", []), ("HAHA", []), ("SAD", []), ("ANGRY", []),
                  ("THANKFUL", []), ("LIKE", [1])]) ∧
    (9 : Nat) ∈ reactionIds none [⟨some "LIKE", true, 9⟩] "LIKE" ∧
    (9 : Nat) ∉ [(1 : Nat)] := by
  refine ⟨rfl, by decide, by decide⟩

theorem fetchAllLoop_likes_none (pages : List (List SmallRes)) (fuel : Nat) :
    fetchAllLoop (likesFetchF pages) fuel none =
      fetchAllLoop (likesFetchF pages) fuel (some pages) := by
  cases fuel <;> rfl

theorem likesFetchF_last (pages : List (List SmallRes)) (d : List SmallRes) :
    likesFetchF pages (some [d]) = (likesIds d, some ⟨d, none⟩) := rfl

theorem likesFetchF_cons (pages : List (List SmallRes)) (d e : List SmallRes)
    (rs : List (List SmallRes)) :
    likesFetchF pages (some (d :: e :: rs)) = (likesIds d, some ⟨d, some (e :: rs)⟩) := rfl

theorem fetchAllLoop_likes_aux (pages : List (List SmallRes)) :
    ∀ (rem : List (List SmallRes)) (fuel : Nat), rem.length ≤ fuel →
      fetchAllLoop (likesFetchF pages) fuel (some rem) =
        (rem.map likesIds).flatten := by
  intro rem
  induction rem with
  | nil =>
    intro fuel _
    cases fuel with
    | zero => rfl
    | succ n => rfl
  | cons d rest ih =>
    intro fuel h
    cases fuel with
    | zero => exact absurd h (by simp)
    | succ n =>
      cases rest with
      | nil =>
        simp only [fetchAllLoop, likesFetchF_last]
        simp
      | cons e rs =>
        simp only [fetchAllLoop, likesFetchF_cons]
        rw [ih n (by simp only [List.length_cons] at h ⊢; omega)]
        simp

theorem fetch_likes_covers (s₀ : LikeState) (pages : List (List SmallRes)) (fuel : Nat)
    (h : pages.length ≤ fuel) (x : Nat) :
    x ∈ (fetch_likes_run s₀ pages fuel).2 ↔ ∃ d, d ∈ pages ∧ x ∈ likesIds d := by
  unfold fetch_likes_run
  dsimp only [update_count_and_get_like_users]
  rw [fetchAllLoop_likes_none, fetchAllLoop_likes_aux pages pages fuel h]
  rw [List.mem_dedup, List.mem_flatten]
  constructor
  · rintro ⟨l, hl, hx⟩
    obtain ⟨d, hd, rfl⟩ := List.mem_map.mp hl
    exact ⟨d, hd, hx⟩
  · rintro ⟨d, hd, hx⟩
    exact ⟨_, List.mem_map.mpr ⟨d, hd, rfl⟩, hx⟩

theorem fetchAllLoopE_shares_aux (pk2g g2pk : Nat → Nat) (pages : List (List SharePost)) :
    ∀ (rem : List (List SharePost)) (fuel : Nat) (s : ShareState),
      rem.length ≤ fuel → (∀ page, page ∈ rem → sharePageOK page = true) →
      ∃ s', fetchAllLoopE (fetch_shares_step pk2g g2pk pages) fuel s (some rem) =
        .ok ((rem.map (share_ids_pure g2pk)).flatten, s') := by
  intro rem
  induction rem with
  | nil =>
    intro fuel s _ _
    cases fuel with
    | zero => exact ⟨s, rfl⟩
    | succ n => exact ⟨s, rfl⟩
  | cons d rest ih =>
    intro fuel s h hOK
    cases fuel with
    | zero => exact absurd h (by simp)
    | succ n =>
      have hd : sharePageOK d = true := hOK d (List.mem_cons_self d rest)
      cases rest with
      | nil =>
        have hpage := fetch_shares_page_ok pk2g g2pk s
          (⟨d, none⟩ : Response SharePost (List (List SharePost))) hd
        have hstep : fetch_shares_step pk2g g2pk pages s (some [d]) =
            .ok (share_ids_pure g2pk d,
                 { s with edges := kept_edges_of pk2g g2pk s d ++
                                   new_edges_of pk2g g2pk s d },
                 some (⟨d, none⟩ : Response SharePost (List (List SharePost)))) := by
          unfold fetch_shares_step
          rw [show pagesApi pages (some [d]) =
              some (⟨d, none⟩ : Response SharePost (List (List SharePost))) from rfl]
          rw [hpage]
          rw [share_ids_of_eq_pure]
        refine ⟨{ s with edges := kept_edges_of pk2g g2pk s d ++
                                  new_edges_of pk2g g2pk s d }, ?_⟩
        simp only [fetchAllLoopE]
        rw [hstep]
        simp
      | cons e rs =>
        have hpage := fetch_shares_page_ok pk2g g2pk s
          (⟨d, some (e :: rs)⟩ : Response SharePost (List (List SharePost))) hd
        have hstep : fetch_shares_step pk2g g2pk pages s (some (d :: e :: rs)) =
            .ok (share_ids_pure g2pk d,
                 { s with edges := kept_edges_of pk2g g2pk s d ++
                                   new_edges_of pk2g g2pk s d },
                 some (⟨d, some (e :: rs)⟩ :
                   Response SharePost (List (List SharePost)))) := by
          unfold fetch_shares_step
          rw [show pagesApi pages (some (d :: e :: rs)) =
              some (⟨d, some (e :: rs)⟩ :
                Response SharePost (List (List SharePost))) from rfl]
          rw [hpage]
          rw [share_ids_of_eq_pure]
        obtain ⟨s2, hrec⟩ := ih n
          { s with edges := kept_edges_of pk2g g2pk s d ++ new_edges_of pk2g g2pk s d }
          (by simp only [List.length_cons] at h ⊢; omega)
          (fun page hp => hOK page (List.mem_cons_of_mem d hp))
        refine ⟨s2, ?_⟩
        simp only [fetchAllLoopE]
        rw [hstep]
        dsimp only
        rw [hrec]
        simp

theorem fetch_shares_run_covers (pk2g g2pk : Nat → Nat) (s₀ : ShareState)
    (pages : List (List SharePost)) (fuel : Nat) (h : pages.length ≤ fuel)
    (hOK : ∀ page, page ∈ pages → sharePageOK page = true) :
    ∃ s', fetch_shares_run pk2g g2pk s₀ pages fuel =
      .ok (s', ((pages.map (share_ids_pure g2pk)).flatten).dedup) := by
  obtain ⟨s1, hu⟩ := fetchAllLoopE_shares_aux pk2g g2pk pages pages fuel s₀ h hOK
  have hnone : fetchAllLoopE (fetch_shares_step pk2g g2pk pages) fuel s₀ none =
      fetchAllLoopE (fetch_shares_step pk2g g2pk pages) fuel s₀ (some pages) := by
    cases fuel <;> rfl
  refine ⟨(update_count_and_get_shares_users s1
    (((pages.map (share_ids_pure g2pk)).flatten).dedup)).1, ?_⟩
  unfold fetch_shares_run
  rw [hnone, hu]
  dsimp only
  exact congrArg Except.ok (Prod.ext rfl (update_shares_snd s1 _))

theorem fetchAllLoop_const_mem {ρ κ : Type} (l : List Nat)
    (resp0 : Option (Response ρ κ)) :
    ∀ (fuel : Nat) (cur : Option κ) (x : Nat),
      x ∈ fetchAllLoop (fun _ => (l, resp0)) fuel cur → x ∈ l := by
  intro fuel
  induction fuel with
  | zero =>
    intro cur x hx
    exact absurd hx (List.not_mem_nil x)
  | succ n ih =>
    intro cur x hx
    simp only [fetchAllLoop] at hx
    cases resp0 with
    | none => exact hx
    | some r =>
      obtain ⟨rd, ra⟩ := r
      cases ra with
      | none => exact hx
      | some c =>
        rcases List.mem_append.mp hx with hx | hx
        · exact hx
        · exact ih (some c) x hx

theorem reactionEntry_first_page (reaction : Option String)
    (pages : List (List ReactionRes)) (fuel : Nat) (t : String) (x : Nat)
    (h : x ∈ reactionEntry reaction pages fuel t) :
    x ∈ reactionIds reaction (pages.headD []) t := by
  simp only [reactionEntry] at h
  rw [List.mem_dedup] at h
  have h2 := fetchAllLoop_const_mem _ _ fuel none x h
  rw [List.mem_dedup] at h2
  cases pages with
  | nil => exact h2
  | cons d rest => exact h2

/-- C8 amended: `fetch_likes` and `fetch_shares` consume the remote
collection page by page via the response's after cursor until exhausted, and
their final returned sets cover every page; `fetch_reactions` however builds
its id sets from the single initial `api_call`, and whatever the fuel its
per-type entries only ever contain users of the first page. -/
theorem C8_pagination :
    (∀ (s₀ : LikeState) (pages : List (List SmallRes)) (fuel : Nat),
      pages.length ≤ fuel → ∀ x, x ∈ (fetch_likes_run s₀ pages fuel).2 ↔
        ∃ d, d ∈ pages ∧ x ∈ likesIds d) ∧
    (∀ (pk2g g2pk : Nat → Nat) (s₀ : ShareState) (pages : List (List SharePost))
        (fuel : Nat),
      pages.length ≤ fuel → (∀ page, page ∈ pages → sharePageOK page = true) →
      ∃ s' ret, fetch_shares_run pk2g g2pk s₀ pages fuel = .ok (s', ret) ∧
        ∀ x, x ∈ ret ↔ ∃ d, d ∈ pages ∧ x ∈ share_ids_pure g2pk d) ∧
    (∀ (reaction : Option String) (pages : List (List ReactionRes)) (fuel : Nat)
        (t : String) (x : Nat),
      x ∈ reactionEntry reaction pages fuel t →
      x ∈ reactionIds reaction (pages.headD []) t) := by
  refine ⟨fun s₀ pages fuel h x => fetch_likes_covers s₀ pages fuel h x,
          fun pk2g g2pk s₀ pages fuel h hOK => ?_,
          fun reaction pages fuel t x hx =>
            reactionEntry_first_page reaction pages fuel t x hx⟩
  obtain ⟨s', hs⟩ := fetch_shares_run_covers pk2g g2pk s₀ pages fuel h hOK
  refine ⟨s', ((pages.map (share_ids_pure g2pk)).flatten).dedup, hs, fun x => ?_⟩
  rw [List.mem_dedup, List.mem_flatten]
  constructor
  · rintro ⟨l, hl, hx⟩
    obtain ⟨d, hd, rfl⟩ := List.mem_map.mp hl
    exact ⟨d, hd, hx⟩
  · rintro ⟨d, hd, hx⟩
    exact ⟨_, List.mem_map.mpr ⟨d, hd, rfl⟩, hx⟩

theorem C8_witness :
    (9 : Nat) ∈ (fetch_likes_run ⟨[], none, false⟩ [[⟨true, 1⟩], [⟨true, 9⟩]] 2).2 :=
  (C8_pagination.1 ⟨[], none, false⟩ [[⟨true, 1⟩], [⟨true, 9⟩]] 2 (by decide) 9).mpr
    ⟨[⟨true, 9⟩], by decide, by decide⟩

end FacebookApi
